import Mathlib

/-!
Shallow embedding of the release-reconciliation core of
coreos/helm-app-operator-kit (helm-app-operator), verified against its
natural-language specification.

The Go source is embedded as executable Lean definitions:

* `HelmOp.GetReleaseName`, `HelmOp.shortenUID`
  — pkg/helm/release/name.go (identical to `releaseNameForCR`/`shortenUID`
  in the release-manager revision).
* `HelmOp.getReleaseName`
  — the legacy variant in pkg/helm/helm.go (status / annotation based).
* `HelmOp.SplitManifests`, `HelmOp.addOwnerRefs`, `HelmOp.Render`
  — the owner-reference-injecting renderer (OwnerRefEngine) of
  pkg/helm (the document-splitting revision).  The Go code iterates with
  `range` over the `map[string]string` returned by
  `releaseutil.SplitManifests`; Go's map iteration order is unspecified,
  which is modelled by an explicit iteration order `σ : List Nat`
  (admissible iff it is a permutation of the document indices).  The YAML
  parser (`chartutil.FromYaml`) and serializer (`chartutil.ToYaml`) are
  external library code, modelled as parameters `parse` / `ser`.
* `HelmOp.Sync`, `HelmOp.UninstallRelease`, `HelmOp.InstallRelease`,
  `HelmOp.UpdateRelease`, `HelmOp.PrepareRelease`
  — the release manager (pkg/helm/release).  The tiller release store is
  modelled as an in-memory list of releases (the helm storage contract);
  tiller request outcomes are passed in as explicit response values.
* `HelmOp.Reconcile`
  — HelmOperatorReconciler.Reconcile of pkg/helm/controller/reconcile.go,
  as a pure function of the custom resource and the outcomes of the
  manager calls; it records the manager calls made, the resource updates
  written through the client, the requeue decision and the returned error.
* `HelmOp.HelmAppStatus` — Modelled from the spec: the status subresource
  type lives in pkg/helm/internal/types which is not part of the sources;
  it is reconstructed here from the spec's status model (§4.G: `StatusFor`
  returns the existing status or a fresh empty one) and from its call
  sites (`SetPhase`, `SetRelease`), with a `conditions` field per the
  spec's conditions model.  No code path of this revision touches
  `conditions`.
-/

namespace HelmOp

/-! ## Data model -/

/-- metav1.OwnerReference (the fields used by the engine). -/
structure OwnerReference where
  apiVersion : String
  kind : String
  name : String
  uid : String
  controller : Option Bool
  blockOwnerDeletion : Option Bool
deriving DecidableEq, Repr

/-- hapi release status codes (release.Status_DEPLOYED etc.). -/
inductive StatusCode
  | deployed
  | failed
  | superseded
  | deleted
  | unknown
deriving DecidableEq, Repr

/-- hapi Release, restricted to the fields the engine reads. -/
structure Release where
  name : String
  version : Nat
  manifest : String
  code : StatusCode
  notes : String := ""
deriving DecidableEq, Repr

/-- A status condition.  Modelled from the spec (§4.G conditions model);
no code path of this source revision creates or mutates conditions. -/
structure StatusCondition where
  condType : String
  condStatus : String
  reason : String := ""
  message : String := ""
deriving DecidableEq, Repr

/-- Modelled from the spec: internal/types.HelmAppStatus is absent from the
sources; fields follow the spec's status model and the call sites
(`SetPhase`, `SetRelease`) in reconcile.go. -/
structure HelmAppStatus where
  phase : String := ""
  reason : String := ""
  message : String := ""
  release : Option Release := none
  conditions : List StatusCondition := []
deriving DecidableEq, Repr

/-- The custom resource, restricted to the fields the engine reads. -/
structure CR where
  name : String
  uid : String
  namespc : String := ""
  apiVersion : String := ""
  kind : String := ""
  deletionTimestamp : Option String := none
  finalizers : List String := []
  annotations : List (String × String) := []
  status : HelmAppStatus := {}
deriving DecidableEq, Repr

/-! ## Release-name derivation (pkg/helm/release/name.go) -/

/-- Value of an ASCII hex digit (uuid.Parse's xtob). -/
def hexVal (c : Char) : Option Nat :=
  if '0' ≤ c ∧ c ≤ '9' then some (c.toNat - '0'.toNat)
  else if 'a' ≤ c ∧ c ≤ 'f' then some (c.toNat - 'a'.toNat + 10)
  else if 'A' ≤ c ∧ c ≤ 'F' then some (c.toNat - 'A'.toNat + 10)
  else none

/-- Two hex digits to a byte (uuid's xtob). -/
def xtob (c₁ c₂ : Char) : Option Nat := do
  let h ← hexVal c₁
  let l ← hexVal c₂
  return h * 16 + l

/-- Character positions of the 16 hex pairs in the canonical
"xxxxxxxx-xxxx-xxxx-xxxx-xxxxxxxxxxxx" form. -/
def uuidHexPositions : List Nat :=
  [0, 2, 4, 6, 9, 11, 14, 16, 19, 21, 24, 26, 28, 30, 32, 34]

/-- Parse the 36-character canonical UUID form into its 16 bytes
(pborman/uuid.Parse, canonical branch). -/
def parseUUID36 (cs : List Char) : Option (List Nat) :=
  if cs.length = 36 ∧
      cs.getD 8 ' ' = '-' ∧ cs.getD 13 ' ' = '-' ∧
      cs.getD 18 ' ' = '-' ∧ cs.getD 23 ' ' = '-' then
    uuidHexPositions.mapM (fun i => xtob (cs.getD i ' ') (cs.getD (i + 1) ' '))
  else
    none

/-- pborman/uuid.Parse: accepts the canonical 36-character form, or the
same prefixed by "urn:uuid:" (case-insensitive); returns the 16 raw
bytes, or `none` when parsing fails. -/
def uuidParse (s : String) : Option (List Nat) :=
  let cs := s.data
  if cs.length = 45 then
    if String.mk ((cs.take 9).map Char.toLower) = "urn:uuid:" then
      parseUUID36 (cs.drop 9)
    else none
  else parseUUID36 cs

/-- Lowercase base-36 digit characters. -/
def base36Digit (n : Nat) : Char :=
  "0123456789abcdefghijklmnopqrstuvwxyz".data.getD n '?'

/-- Base-36 digit expansion, most significant digit first, with a fuel
argument for structural recursion (the fuel never runs out for
`fuel = n + 1` since each step divides by 36). -/
def b36go : Nat → Nat → List Char
  | 0, _ => []
  | fuel + 1, n =>
    if n < 36 then [base36Digit n]
    else b36go fuel (n / 36) ++ [base36Digit (n % 36)]

/-- Base-36 digit expansion, most significant digit first
(big.Int.Text(36) as used by base36.EncodeBytes, already lowercased). -/
def natToBase36 (n : Nat) : List Char :=
  b36go (n + 1) n

/-- Big-endian byte list to natural number (big.Int.SetBytes). -/
def natOfBytes (bs : List Nat) : Nat :=
  bs.foldl (fun a b => a * 256 + b) 0

/-- base36.EncodeBytes followed by strings.ToLower: the bytes as a
big-endian integer, written in lowercase base 36. -/
def encodeBytesBase36 (bs : List Nat) : String :=
  String.mk (natToBase36 (natOfBytes bs))

/-- strings.Replace(uid, "-", "", -1): remove every '-' character. -/
def removeDashes (s : String) : String :=
  String.mk (s.data.filter fun c => c ≠ '-')

/-- shortenUID (pkg/helm/release/name.go): base-36 encoding of the UUID's
16 raw bytes, falling back to the UID with all '-' removed when UUID
parsing fails. -/
def shortenUID (uid : String) : String :=
  match uuidParse uid with
  | some bs => encodeBytesBase36 bs
  | none => removeDashes uid

/-- GetReleaseName (pkg/helm/release/name.go):
`fmt.Sprintf("%s-%s", r.GetName(), shortenUID(r.GetUID()))`. -/
def GetReleaseName (r : CR) : String :=
  r.name ++ "-" ++ shortenUID r.uid

/-! ## Legacy release-name derivation (pkg/helm/helm.go getReleaseName) -/

def annotationReleaseName : String := "helm.operator-sdk/release-name"

def annotationUseNameAsReleaseName : String :=
  "helm.operator-sdk/use-name-as-release-name"

/-- Annotation lookup. -/
def getAnnotation (r : CR) (key : String) : Option String :=
  (r.annotations.find? (fun p => p.1 = key)).map Prod.snd

/-- getReleaseName (pkg/helm/helm.go): the status release's name when
present, else the release-name annotation, else the CR name when the
use-name-as-release-name annotation is "true", else the empty string. -/
def getReleaseName (r : CR) : String :=
  match r.status.release with
  | some rel => rel.name
  | none =>
    match getAnnotation r annotationReleaseName with
    | some v => v
    | none =>
      match getAnnotation r annotationUseNameAsReleaseName with
      | some v => if v = "true" then r.name else ""
      | none => ""

/-! ## Owner-reference-injecting renderer (OwnerRefEngine, pkg/helm)

The YAML parse (`chartutil.FromYaml`) and serialization
(`chartutil.ToYaml` after `SetOwnerReferences`) are external library
calls; they are modelled by parameters.  A parsed document is either a
parse error (the map carries an "Error" key), an empty mapping, or a
document value carrying its body and its current owner references;
serialization consumes such a document. -/

/-- A YAML document as seen by the engine after parsing: an opaque body
plus the metadata.ownerReferences entry (the only field the engine
writes). -/
structure Doc where
  body : String
  ownerRefs : List OwnerReference
deriving DecidableEq, Repr

/-- Outcome of chartutil.FromYaml on one document. -/
inductive ParseResult
  | err (msg : String)
  | emptyDoc
  | doc (d : Doc)
deriving DecidableEq, Repr

/-- unicode.IsSpace for the characters Go's strings.TrimSpace trims
(ASCII whitespace plus NEL and NBSP). -/
def goIsSpace (c : Char) : Bool :=
  [9, 10, 11, 12, 13, 32, 133, 160].contains c.toNat

/-- strings.TrimSpace on a character list. -/
def trimChars (l : List Char) : List Char :=
  ((l.dropWhile goIsSpace).reverse.dropWhile goIsSpace).reverse

/-- strings.TrimSpace. -/
def goTrimSpace (s : String) : String :=
  String.mk (trimChars s.data)

/-- If the text starts with the separator, return the remainder. -/
def stripSep : List Char → List Char → Option (List Char)
  | [], l => some l
  | _ :: _, [] => none
  | s :: ss, c :: cs => if c = s then stripSep ss cs else none

/-- strings.Split around a non-empty separator, fuelled for structural
recursion (the fuel is irrelevant as long as it is at least the text
length). -/
def splitSepGo (sep : List Char) : Nat → List Char → List Char → List (List Char)
  | _, [], acc => [acc.reverse]
  | 0, l, acc => [acc.reverse ++ l]
  | fuel + 1, c :: cs, acc =>
    match stripSep sep (c :: cs) with
    | some rest => acc.reverse :: splitSepGo sep fuel rest []
    | none => splitSepGo sep fuel cs (c :: acc)

/-- strings.Split. -/
def splitString (s sep : String) : List String :=
  (splitSepGo sep.data (s.data.length + 1) s.data []).map String.mk

/-- strings.HasSuffix. -/
def strEndsWith (s suffix : String) : Bool :=
  decide (suffix.data.length ≤ s.data.length) &&
    (s.data.drop (s.data.length - suffix.data.length) == suffix.data)

/-- releaseutil.SplitManifests (helm 2.x): trim the whole text, split on
"\n---", drop empty pieces, trim each piece.  (The Go function stores the
pieces in a map keyed "manifest-%d"; the list here carries them in input
order, and iteration order over the map is modelled separately.) -/
def SplitManifests (s : String) : List String :=
  ((splitString (goTrimSpace s) "\n---").filter (fun d => d ≠ "")).map
    goTrimSpace

/-- The documents of a file that parse to a non-empty mapping, in input
order. -/
def nonEmptyDocs (parse : String → ParseResult) (contents : String) :
    List Doc :=
  (SplitManifests contents).filterMap fun m =>
    match parse m with
    | .doc d => some d
    | _ => none

/-- No document of the file parses to an error. -/
def parseErrFree (parse : String → ParseResult) (contents : String) : Bool :=
  (SplitManifests contents).all fun m =>
    match parse m with
    | .err _ => false
    | _ => true

/-- The loop body of addOwnerRefs over the documents in iteration order:
fail on a parse error, skip empty documents, and replace the owner
references of the rest (`SetOwnerReferences`). -/
def addOwnerRefsLoop (parse : String → ParseResult)
    (refs : List OwnerReference) : List String → Except String (List Doc)
  | [] => .ok []
  | m :: ms =>
    match parse m with
    | .err e =>
      .error ("error parsing rendered template to add ownerrefs: " ++ e)
    | .emptyDoc => addOwnerRefsLoop parse refs ms
    | .doc d =>
      (addOwnerRefsLoop parse refs ms).map
        (fun ds => { d with ownerRefs := refs } :: ds)

/-- The documents of a file visited in the iteration order `σ` over the
map returned by SplitManifests (Go `range` over a map: `σ` is admissible
iff it is a permutation of the document indices). -/
def iterDocs (contents : String) (σ : List Nat) : List String :=
  σ.filterMap fun i => (SplitManifests contents)[i]?

/-- The document buffer written by the loop: each document serialized and
followed by the separator "---\n" (outBuf.WriteString). -/
def docsOut (ser : Doc → String) : List Doc → String
  | [] => ""
  | d :: ds => (ser d ++ "---\n") ++ docsOut ser ds

/-- addOwnerRefs (OwnerRefEngine, pkg/helm): split the file, and for each
document in iteration order parse it, fail on an error key, skip empty
documents, set the owner references, serialize, and append "---\n". -/
def addOwnerRefs (parse : String → ParseResult) (ser : Doc → String)
    (refs : List OwnerReference) (contents : String) (σ : List Nat) :
    Except String String :=
  (addOwnerRefsLoop parse refs (iterDocs contents σ)).map (docsOut ser)

/-- SetOwnerReferences: replace a document's owner references. -/
def withRefs (refs : List OwnerReference) (d : Doc) : Doc :=
  { d with ownerRefs := refs }

/-- Render (OwnerRefEngine, pkg/helm): given the map of files produced by
the base engine (as an association list) and a per-file iteration order,
keep the ".yaml" files, inject owner references, and drop files whose
result is empty. -/
def Render (parse : String → ParseResult) (ser : Doc → String)
    (refs : List OwnerReference) (orderOf : String → List Nat) :
    List (String × String) → Except String (List (String × String))
  | [] => .ok []
  | (fileName, renderedFile) :: rest =>
    if strEndsWith fileName ".yaml" then
      match addOwnerRefs parse ser refs renderedFile (orderOf fileName) with
      | .error e => .error e
      | .ok withOwner =>
        if withOwner = "" then Render parse ser refs orderOf rest
        else
          (Render parse ser refs orderOf rest).map
            (fun out => (fileName, withOwner) :: out)
    else Render parse ser refs orderOf rest

/-- metav1.NewControllerRef: owner reference to the object with
Controller and BlockOwnerDeletion both pointing at true. -/
def NewControllerRef (r : CR) : OwnerReference :=
  { apiVersion := r.apiVersion
    kind := r.kind
    name := r.name
    uid := r.uid
    controller := some true
    blockOwnerDeletion := some true }

/-- The owner-reference sequence the renderer is constructed with in
tillerRendererForCR: the single controller reference to the CR. -/
def ownerRefsForCR (r : CR) : List OwnerReference :=
  [NewControllerRef r]

/-! ## Release store (helm storage contract, in-memory model)

The release store is external to the repository; the engine uses it
through `Get(name, version)`, `Create(release)`, `Delete(name, version)`
and `History(name)`.  It is modelled as a list of release versions. -/

abbrev Store := List Release

/-- Get(name, version): the stored release with that key, if any. -/
def storeGet (st : Store) (name : String) (version : Nat) : Option Release :=
  st.find? fun rel => rel.name = name ∧ rel.version = version

/-- Create(release): record a release version. -/
def storeCreate (st : Store) (rel : Release) : Store :=
  st ++ [rel]

/-- Delete(name, version): remove the release versions with that key. -/
def storeDelete (st : Store) (name : String) (version : Nat) : Store :=
  st.filter fun rel => ¬(rel.name = name ∧ rel.version = version)

/-- History(name): all stored versions of the release, in store order. -/
def storeHistory (st : Store) (name : String) : List Release :=
  st.filter fun rel => rel.name = name

/-! ## Release manager (pkg/helm/release) -/

/-- The loop body of Sync's history cleanup: delete the release version
unless its status code is DEPLOYED. -/
def syncDeleteStep (acc : Store) (rel : Release) : Store :=
  if rel.code ≠ StatusCode.deployed then
    storeDelete acc rel.name rel.version
  else acc

/-- Sync: if the status records a release that is missing from the store,
re-create it; then delete every history entry of the CR's release name
whose status code is not DEPLOYED (not-found errors on the individual
deletes are tolerated by the source and cannot occur in the in-memory
store model). -/
def Sync (st : Store) (statusRelease : Option Release)
    (releaseName : String) : Store :=
  let st₁ :=
    match statusRelease with
    | some rel =>
      if (storeGet st rel.name rel.version).isSome then st
      else storeCreate st rel
    | none => st
  let releases := storeHistory st₁ releaseName
  releases.foldl syncDeleteStep st₁

/-- services.UninstallReleaseRequest (the fields the engine sets). -/
structure UninstallReleaseRequest where
  name : String
  purge : Bool
deriving DecidableEq, Repr

/-- services.RollbackReleaseRequest (the fields the engine sets). -/
structure RollbackReleaseRequest where
  name : String
  force : Bool
deriving DecidableEq, Repr

/-- The errors UninstallRelease can surface.  `notFound` is the package's
`ErrNotFound` sentinel; the other constructors are distinct error values
produced by fmt.Errorf wrapping or by tiller, never equal to the
sentinel. -/
inductive UErr
  | notFound
  | storeErr (msg : String)
  | tillerErr (msg : String)
deriving DecidableEq, Repr

/-- UninstallRelease (release manager): fetch the history; fail with the
wrapped store error if the fetch fails; return ErrNotFound if the history
is empty; otherwise issue one uninstall request with Purge=true and
return the response's release together with the response's error.  The
first component lists the uninstall requests issued to tiller. -/
def UninstallRelease (releaseName : String)
    (historyResult : Except String (List Release))
    (tillerResponse : Option Release × Option String) :
    List UninstallReleaseRequest × (Option Release × Option UErr) :=
  match historyResult with
  | .error e =>
    ([], (none, some (.storeErr ("failed to get release history: " ++ e))))
  | .ok h =>
    if h.isEmpty then ([], (none, some .notFound))
    else
      ([{ name := releaseName, purge := true }],
        (tillerResponse.1, tillerResponse.2.map UErr.tillerErr))

/-- InstallRelease (release manager): issue the install; on an install
error, if the response nonetheless carries a partial release, issue a
compensating uninstall with Purge=true, and return the original install
error (combining it with the uninstall error only when the compensating
uninstall itself fails).  `installResponse` and `uninstallResponse` are
the tiller responses as pairs (GetRelease(), error); the first component
of the result lists the compensating uninstall requests issued. -/
def InstallRelease (releaseName : String)
    (installResponse : Option Release × Option String)
    (uninstallResponse : Option Release × Option String) :
    List UninstallReleaseRequest × (Option Release × Option String) :=
  match installResponse with
  | (rel, none) => ([], (rel, none))
  | (partialRel, some err) =>
    match partialRel with
    | none => ([], (none, some err))
    | some _ =>
      let req : UninstallReleaseRequest := { name := releaseName, purge := true }
      match uninstallResponse.2 with
      | some uninstallErr =>
        ([req],
          (none, some ("failed to roll back failed installation: "
            ++ uninstallErr ++ ": " ++ err)))
      | none => ([req], (none, some err))

/-- UpdateRelease (release manager): issue the update; on an update
error, if the response nonetheless carries a partial release, issue a
compensating rollback with Force=true, and return the original update
error (combining it with the rollback error only when the rollback
itself fails).  On success returns (previously deployed, new) releases. -/
def UpdateRelease (releaseName : String) (deployedRelease : Option Release)
    (updateResponse : Option Release × Option String)
    (rollbackResponse : Option Release × Option String) :
    List RollbackReleaseRequest ×
      ((Option Release × Option Release) × Option String) :=
  match updateResponse with
  | (rel, none) => ([], ((deployedRelease, rel), none))
  | (partialRel, some err) =>
    match partialRel with
    | none => ([], ((none, none), some err))
    | some _ =>
      let req : RollbackReleaseRequest := { name := releaseName, force := true }
      match rollbackResponse.2 with
      | some rollbackErr =>
        ([req],
          ((none, none), some ("failed to roll back failed update: "
            ++ rollbackErr ++ ": " ++ err)))
      | none => ([req], ((none, none), some err))

/-- Outcome of getDeployedRelease: the deployed release, the ErrNotFound
sentinel (error message contains "has no deployed releases"), or another
store error. -/
inductive DeployedResult
  | ok (rel : Release)
  | notFound
  | err (msg : String)
deriving DecidableEq, Repr

/-- GetManifest() on a possibly-nil release (Go getters are nil-safe). -/
def manifestOf : Option Release → String
  | some rel => rel.manifest
  | none => ""

/-- PrepareRelease (release manager): after loading chart and config,
look up the deployed release; absent one, the flags stay (installed =
false, updateRequired = false); otherwise run the dry-run update and set
updateRequired iff the candidate manifest differs from the deployed
manifest.  `loadResult` is the chartAndConfig outcome, `dryRunResponse`
the tiller dry-run response as (GetRelease(), error).  Returns
(isReleaseInstalled, isUpdateRequired). -/
def PrepareRelease (loadResult : Except String Unit)
    (deployedResult : DeployedResult)
    (dryRunResponse : Option Release × Option String) :
    Except String (Bool × Bool) :=
  match loadResult with
  | .error e => .error ("failed to load chart and config: " ++ e)
  | .ok _ =>
    match deployedResult with
    | .notFound => .ok (false, false)
    | .err e => .error ("failed to retrieve deployed release info: " ++ e)
    | .ok deployed =>
      match dryRunResponse.2 with
      | some e => .error ("failed to execute dry run update: " ++ e)
      | none =>
        .ok (true, deployed.manifest ≠ manifestOf dryRunResponse.1)

/-- IsUpdateRequired (pkg/helm/release/manager.go): run the dry-run
update against the info established for the CR and report whether the
deployed manifest differs from the candidate manifest. -/
def IsUpdateRequired (deployedRelease : Option Release)
    (dryRunResponse : Option Release × Option String) :
    Except String Bool :=
  match dryRunResponse.2 with
  | some e => .error e
  | none =>
    .ok (manifestOf deployedRelease ≠ manifestOf dryRunResponse.1)

/-! ## Reconciler state machine
(HelmOperatorReconciler.Reconcile, pkg/helm/controller/reconcile.go) -/

/-- The finalizer literal. -/
def finalizerName : String := "uninstall-helm-release"

/-- contains (reconcile.go): linear membership scan. -/
def containsStr (l : List String) (s : String) : Bool :=
  l.any fun elem => elem = s

/-- Phase and reason literals (internal/types; values as named by the
source's call sites). -/
def PhaseNone : String := "None"

def PhaseApplied : String := "Applied"

def PhaseFailed : String := "Failed"

def ReasonApplySuccessful : String := "ApplySuccessful"

def ReasonApplyFailed : String := "ApplyFailed"

/-- Modelled from the spec: StatusFor returns the CR's existing status
object (or a fresh empty one, which is the structure default). -/
def StatusFor (r : CR) : HelmAppStatus :=
  r.status

/-- SetPhase (internal/types, modelled from its call sites and the spec's
design note): record phase, reason and message; conditions untouched. -/
def setPhase (st : HelmAppStatus) (phase reason message : String) :
    HelmAppStatus :=
  { st with phase := phase, reason := reason, message := message }

/-- SetRelease (internal/types, modelled from its call sites): record the
release snapshot. -/
def setRelease (st : HelmAppStatus) (rel : Option Release) : HelmAppStatus :=
  { st with release := rel }

/-- updateResource (reconcile.go): write the status into the object and
update it through the client. -/
def updateResource (r : CR) (st : HelmAppStatus) : CR :=
  { r with status := st }

/-- GetNotes() through the nil-safe getter chain
(installedRelease.GetInfo().GetStatus().GetNotes()). -/
def notesOf : Option Release → String
  | some rel => rel.notes
  | none => ""

/-- Printed form of an uninstall error (err.Error()). -/
def uerrString : UErr → String
  | .notFound => "release not found"
  | .storeErr m => m
  | .tillerErr m => m

/-- The manager calls the reconciler can make, in order. -/
inductive MgrCall
  | sync
  | uninstall
  | prepare
  | install
  | update
  | reconcileRelease
deriving DecidableEq, Repr

/-- Outcomes of the manager operations for this reconcile request,
passed to the reconciler as explicit values (the manager performs I/O
against tiller and the store). -/
structure ManagerOutcome where
  syncErr : Option String := none
  uninstallResult : Option Release × Option UErr := (none, none)
  prepareErr : Option String := none
  isReleaseInstalled : Bool := false
  isUpdateRequired : Bool := false
  installResult : Option Release × Option String := (none, none)
  updateResult : (Option Release × Option Release) × Option String :=
    ((none, none), none)
  reconcileErr : Option String := none
deriving Repr

/-- What one Reconcile call did: the final custom resource, the resource
snapshots persisted through the client, the manager calls made in order,
the requeue delay of the returned result, and the returned error. -/
structure ReconcileOutput where
  cr : CR
  updates : List CR
  calls : List MgrCall
  requeueAfter : Option Nat
  err : Option String
deriving DecidableEq, Repr

/-- Reconcile (reconcile.go lines 47–167), after the successful client
fetch of the CR: finalizer addition, Sync, the uninstall path for deleted
resources, PrepareRelease, and the install / update / reconcile paths. -/
def Reconcile (m : ManagerOutcome) (resyncPeriod : Nat) (o : CR) :
    ReconcileOutput :=
  let status := StatusFor o
  let deleted := o.deletionTimestamp.isSome
  let pendingFinalizers := o.finalizers
  if ¬deleted ∧ ¬containsStr pendingFinalizers finalizerName then
    let finalizers := pendingFinalizers ++ [finalizerName]
    let o₁ := updateResource { o with finalizers := finalizers } status
    { cr := o₁, updates := [o₁], calls := [], requeueAfter := none,
      err := none }
  else
    match m.syncErr with
    | some e =>
      let o₁ := updateResource o (setPhase status PhaseFailed ReasonApplyFailed e)
      { cr := o₁, updates := [o₁], calls := [.sync], requeueAfter := none,
        err := some e }
    | none =>
      if deleted then
        if ¬containsStr pendingFinalizers finalizerName then
          { cr := o, updates := [], calls := [.sync], requeueAfter := none,
            err := none }
        else
          match m.uninstallResult with
          | (_, some .notFound) =>
            { cr := o, updates := [], calls := [.sync, .uninstall],
              requeueAfter := none, err := none }
          | (_, some e) =>
            let o₁ := updateResource o
              (setPhase status PhaseFailed ReasonApplyFailed (uerrString e))
            { cr := o₁, updates := [o₁], calls := [.sync, .uninstall],
              requeueAfter := none, err := some (uerrString e) }
          | (_, none) =>
            let finalizers := pendingFinalizers.foldl
              (fun acc f => if f ≠ finalizerName then acc ++ [f] else acc) []
            let st := setRelease
              (setPhase status PhaseNone ReasonApplySuccessful "") none
            let o₁ := updateResource { o with finalizers := finalizers } st
            { cr := o₁, updates := [o₁], calls := [.sync, .uninstall],
              requeueAfter := none, err := none }
      else
        match m.prepareErr with
        | some e =>
          let o₁ := updateResource o
            (setPhase status PhaseFailed ReasonApplyFailed e)
          { cr := o₁, updates := [o₁], calls := [.sync, .prepare],
            requeueAfter := none, err := some e }
        | none =>
          if ¬m.isReleaseInstalled then
            match m.installResult with
            | (_, some e) =>
              let o₁ := updateResource o
                (setPhase status PhaseFailed ReasonApplyFailed e)
              { cr := o₁, updates := [o₁],
                calls := [.sync, .prepare, .install],
                requeueAfter := none, err := some e }
            | (installedRelease, none) =>
              let st := setRelease
                (setPhase status PhaseApplied ReasonApplySuccessful
                  (notesOf installedRelease)) installedRelease
              let o₁ := updateResource o st
              { cr := o₁, updates := [o₁],
                calls := [.sync, .prepare, .install],
                requeueAfter := some resyncPeriod, err := none }
          else if m.isUpdateRequired then
            match m.updateResult with
            | (_, some e) =>
              let o₁ := updateResource o
                (setPhase status PhaseFailed ReasonApplyFailed e)
              { cr := o₁, updates := [o₁],
                calls := [.sync, .prepare, .update],
                requeueAfter := none, err := some e }
            | ((_, updatedRelease), none) =>
              let st := setRelease
                (setPhase status PhaseApplied ReasonApplySuccessful
                  (notesOf updatedRelease)) updatedRelease
              let o₁ := updateResource o st
              { cr := o₁, updates := [o₁],
                calls := [.sync, .prepare, .update],
                requeueAfter := some resyncPeriod, err := none }
          else
            match m.reconcileErr with
            | some e =>
              let o₁ := updateResource o
                (setPhase status PhaseFailed ReasonApplyFailed e)
              { cr := o₁, updates := [o₁],
                calls := [.sync, .prepare, .reconcileRelease],
                requeueAfter := none, err := some e }
            | none =>
              { cr := o, updates := [],
                calls := [.sync, .prepare, .reconcileRelease],
                requeueAfter := some resyncPeriod, err := none }

/-! ## Concrete instances used by witnesses and counterexamples -/

/-- A deleted CR carrying only the uninstall finalizer, whose install
never succeeded (empty status, empty release history). -/
def crDeletedNoRelease : CR :=
  { name := "example"
    uid := "not-a-uuid"
    namespc := "ns"
    deletionTimestamp := some "2018-06-01T00:00:00Z"
    finalizers := [finalizerName] }

/-- Manager outcome where UninstallRelease returns ErrNotFound. -/
def mgrUninstallNotFound : ManagerOutcome :=
  { uninstallResult := (none, some .notFound) }

/-- A freshly created CR: live, no finalizers, empty status. -/
def crFresh : CR :=
  { name := "app", uid := "u-1" }

/-- Manager outcome where every operation succeeds trivially. -/
def mgrAllOk : ManagerOutcome := {}

/-- A deleted CR with the uninstall finalizer between two foreign
finalizers. -/
def crDeletedManyFinalizers : CR :=
  { name := "app"
    uid := "u-2"
    deletionTimestamp := some "2018-06-01T00:00:00Z"
    finalizers := ["keep.example/a", finalizerName, "keep.example/b"] }

/-- A CR carrying a release-name annotation (legacy helm.go naming). -/
def crAnnotated : CR :=
  { name := "foo"
    uid := "abc123"
    annotations := [(annotationReleaseName, "custom")] }

/-- The same CR without the annotation. -/
def crAnnotatedStripped : CR :=
  { name := "foo", uid := "abc123" }

/-- A CR with a UUID-shaped uid and some annotations. -/
def crUUID : CR :=
  { name := "foo"
    uid := "00000000-0000-0000-0000-000000000001"
    annotations := [("irrelevant", "annotation-value")] }

/-- Same name and uid as `crUUID`, different annotations and status. -/
def crUUIDOther : CR :=
  { name := "foo"
    uid := "00000000-0000-0000-0000-000000000001"
    status := { phase := "Applied" } }

/-- A toy document parser for witnesses: the empty string is an empty
document, anything else is a document whose body is the text itself. -/
def toyParse : String → ParseResult := fun m =>
  if m = "" then .emptyDoc else .doc { body := m, ownerRefs := [] }

/-- A toy serializer for witnesses: the document body. -/
def toySer : Doc → String := fun d => d.body

/-- A two-document file. -/
def twoDocFile : String := "a\n---\nb"

/-- A concrete owner reference. -/
def refA : OwnerReference :=
  { apiVersion := "apps/v1"
    kind := "TestApp"
    name := "test"
    uid := "123"
    controller := some true
    blockOwnerDeletion := some true }

/-- A base-engine output map with a multi-document yaml file, a non-yaml
file, and a yaml file with only an empty document. -/
def renderedFiles : List (String × String) :=
  [("a.yaml", twoDocFile), ("notes.txt", "x"), ("empty.yaml", "")]

/-- A per-file iteration order for `renderedFiles` that visits the two
documents of "a.yaml" in swapped order. -/
def orderSwap : String → List Nat := fun n =>
  if n = "a.yaml" then [1, 0]
  else if n = "notes.txt" then [0]
  else []

/-- A failed version-1 release of the name "r-x". -/
def relFailedV1 : Release :=
  { name := "r-x", version := 1, manifest := "m1", code := .failed }

/-- A deployed version-2 release of the name "r-x". -/
def relDeployedV2 : Release :=
  { name := "r-x", version := 2, manifest := "m2", code := .deployed }

/-- A store holding only the failed version. -/
def storeWithFailed : Store := [relFailedV1]

/-- A deployed release used by PrepareRelease witnesses. -/
def relDeployedW : Release :=
  { name := "w", version := 3, manifest := "old-manifest", code := .deployed }

/-- A dry-run candidate release with a different manifest. -/
def relCandidateW : Release :=
  { name := "w", version := 3, manifest := "new-manifest", code := .deployed }

/-! ## Helper lemmas -/

/-- The finalizer-removal loop of the deletion path builds the filter of
the pending finalizers onto its accumulator. -/
theorem foldl_removeFinalizer (l acc : List String) :
    l.foldl (fun acc f => if f = finalizerName then acc else acc ++ [f]) acc
      = acc ++ l.filter (fun f => !decide (f = finalizerName)) := by
  induction l generalizing acc with
  | nil => simp
  | cons x xs ih =>
    by_cases hx : x = finalizerName
    · simp [hx, ih]
    · simp [hx, ih]

/-- One cleanup step only removes store entries. -/
theorem syncDeleteStep_subset (acc : Store) (rel : Release) :
    syncDeleteStep acc rel ⊆ acc := by
  unfold syncDeleteStep
  split
  · intro x hx
    exact (List.mem_filter.mp hx).1
  · exact fun x hx => hx

/-- The cleanup loop only removes store entries. -/
theorem foldl_syncDelete_subset (hist : List Release) (acc : Store) :
    hist.foldl syncDeleteStep acc ⊆ acc := by
  induction hist generalizing acc with
  | nil => exact fun x hx => hx
  | cons h t ih =>
    intro x hx
    exact syncDeleteStep_subset acc h (ih (syncDeleteStep acc h) hx)

/-- A non-deployed release visited by the cleanup loop is absent from the
loop's result. -/
theorem nonDeployed_not_mem_syncFold (hist : List Release) (rel : Release)
    (hnd : rel.code ≠ StatusCode.deployed) :
    ∀ acc, rel ∈ hist → rel ∉ hist.foldl syncDeleteStep acc := by
  induction hist with
  | nil => intro acc h; cases h
  | cons h t ih =>
    intro acc hmem
    rcases List.mem_cons.mp hmem with heq | hmem'
    · subst heq
      intro hc
      have hsub := foldl_syncDelete_subset t (syncDeleteStep acc rel) hc
      have hout : rel ∉ syncDeleteStep acc rel := by
        simp only [syncDeleteStep, if_pos hnd]
        intro hin
        have := (List.mem_filter.mp hin).2
        simp at this
      exact hout hsub
    · exact ih (syncDeleteStep acc h) hmem'

/-- storeGet misses iff no entry carries the key. -/
theorem storeGet_eq_none_iff (st : Store) (n : String) (v : Nat) :
    storeGet st n v = none ↔
      ∀ r ∈ st, ¬(r.name = n ∧ r.version = v) := by
  simp [storeGet, List.find?_eq_none]

/-- The store-key predicate is false when the key differs. -/
theorem keyPred_eq_false {r : Release} {n : String} {v : Nat}
    (h : ¬(r.name = n ∧ r.version = v)) :
    (decide (r.name = n) && decide (r.version = v)) = false := by
  by_cases h1 : r.name = n
  · have h2 : ¬r.version = v := fun hv => h ⟨h1, hv⟩
    simp [h1, h2]
  · simp [h1]

/-- The store-key predicate is true when the key matches. -/
theorem keyPred_eq_true {r : Release} {n : String} {v : Nat}
    (h : r.name = n ∧ r.version = v) :
    (decide (r.name = n) && decide (r.version = v)) = true := by
  simp [h.1, h.2]

/-- Deleting one key leaves lookups of a different key unchanged. -/
theorem storeGet_delete_of_ne (st : Store) (dn n : String) (dv v : Nat)
    (hne : ¬(dn = n ∧ dv = v)) :
    storeGet (storeDelete st dn dv) n v = storeGet st n v := by
  induction st with
  | nil => rfl
  | cons r rs ih =>
    by_cases hdel : r.name = dn ∧ r.version = dv
    · have hnm : ¬(r.name = n ∧ r.version = v) := by
        rintro ⟨h1, h2⟩
        exact hne ⟨hdel.1.symm.trans h1, hdel.2.symm.trans h2⟩
      have hLHS : storeDelete (r :: rs) dn dv = storeDelete rs dn dv := by
        simp [storeDelete, List.filter_cons, hdel]
      rw [hLHS, ih]
      simp [storeGet, List.find?_cons, keyPred_eq_false hnm]
    · have hLHS : storeDelete (r :: rs) dn dv = r :: storeDelete rs dn dv := by
        simp [storeDelete, List.filter_cons, hdel]
      rw [hLHS]
      by_cases hm : r.name = n ∧ r.version = v
      · simp [storeGet, List.find?_cons, keyPred_eq_true hm]
      · have hcons : storeGet (r :: storeDelete rs dn dv) n v
            = storeGet (storeDelete rs dn dv) n v := by
          simp [storeGet, List.find?_cons, keyPred_eq_false hm]
        have hcons₂ : storeGet (r :: rs) n v = storeGet rs n v := by
          simp [storeGet, List.find?_cons, keyPred_eq_false hm]
        rw [hcons, hcons₂, ih]

/-- Appending past a store in which the key is absent. -/
theorem storeGet_append (st st₂ : Store) (n : String) (v : Nat)
    (hnone : storeGet st n v = none) :
    storeGet (st ++ st₂) n v = storeGet st₂ n v := by
  induction st with
  | nil => rfl
  | cons r rs ih =>
    have h1 : ¬(r.name = n ∧ r.version = v) :=
      (storeGet_eq_none_iff (r :: rs) n v).mp hnone r (List.mem_cons_self r rs)
    have h2 : storeGet rs n v = none := by
      rw [storeGet_eq_none_iff] at hnone ⊢
      exact fun x hx => hnone x (List.mem_cons_of_mem r hx)
    calc storeGet ((r :: rs) ++ st₂) n v
        = storeGet (rs ++ st₂) n v := by
          simp [storeGet, List.find?_cons, keyPred_eq_false h1]
      _ = storeGet st₂ n v := ih h2

/-- The cleanup loop preserves lookups of keys it never deletes. -/
theorem storeGet_foldl_preserved (hist : List Release) (n : String) (v : Nat) :
    ∀ acc,
      (∀ r ∈ hist, r.code ≠ StatusCode.deployed →
        ¬(r.name = n ∧ r.version = v)) →
      storeGet (hist.foldl syncDeleteStep acc) n v = storeGet acc n v := by
  induction hist with
  | nil => intro acc _; rfl
  | cons h t ih =>
    intro acc hkeys
    rw [List.foldl_cons,
      ih _ (fun r hr hc => hkeys r (List.mem_cons_of_mem h hr) hc)]
    by_cases hc : h.code = StatusCode.deployed
    · simp [syncDeleteStep, hc]
    · have hne := hkeys h (List.mem_cons_self h t) hc
      simp only [syncDeleteStep, if_pos hc]
      exact storeGet_delete_of_ne acc h.name n h.version v hne

/-- After the cleanup loop over the history of `releaseName`, every
remaining entry of that name is DEPLOYED. -/
theorem history_foldl_only_deployed (base : Store) (releaseName : String) :
    ∀ r, r ∈ (storeHistory base releaseName).foldl syncDeleteStep base →
      r.name = releaseName → r.code = StatusCode.deployed := by
  intro r hr hname
  by_contra hnd
  have hmem : r ∈ base := foldl_syncDelete_subset _ _ hr
  have hhist : r ∈ storeHistory base releaseName := by
    simp [storeHistory, List.mem_filter, hmem, hname]
  exact nonDeployed_not_mem_syncFold _ r hnd base hhist hr

/-- When no visited document parses to an error, the loop returns the
non-empty documents in visiting order, each with the configured owner
references. -/
theorem addOwnerRefsLoop_ok (parse : String → ParseResult)
    (refs : List OwnerReference) (ms : List String)
    (h : ∀ m ∈ ms, ∀ e, parse m ≠ .err e) :
    addOwnerRefsLoop parse refs ms
      = .ok ((ms.filterMap fun m =>
          match parse m with
          | .doc d => some d
          | _ => none).map (withRefs refs)) := by
  induction ms with
  | nil => rfl
  | cons m ms ih =>
    have hm := h m (List.mem_cons_self m ms)
    have hrest := ih fun x hx e => h x (List.mem_cons_of_mem m hx) e
    cases hp : parse m with
    | err e => exact absurd hp (hm e)
    | emptyDoc => simp [addOwnerRefsLoop, hp, hrest]
    | doc d => simp [addOwnerRefsLoop, hp, hrest, withRefs, Except.map]

/-- Every document in a successful loop result carries the configured
owner references. -/
theorem addOwnerRefsLoop_refs (parse : String → ParseResult)
    (refs : List OwnerReference) :
    ∀ ms ds, addOwnerRefsLoop parse refs ms = .ok ds →
      ∀ d ∈ ds, d.ownerRefs = refs := by
  intro ms
  induction ms with
  | nil =>
    intro ds hds d hd
    cases hds
    cases hd
  | cons m ms ih =>
    intro ds hds d hd
    cases hp : parse m with
    | err e => rw [addOwnerRefsLoop, hp] at hds; cases hds
    | emptyDoc =>
      rw [addOwnerRefsLoop, hp] at hds
      exact ih ds hds d hd
    | doc d₀ =>
      rw [addOwnerRefsLoop, hp] at hds
      cases hrec : addOwnerRefsLoop parse refs ms with
      | error e => rw [hrec] at hds; cases hds
      | ok ds' =>
        rw [hrec] at hds
        cases hds
        rcases List.mem_cons.mp hd with heq | hmem
        · subst heq; rfl
        · exact ih ds' hrec d hmem

/-- Indexing the whole range of a list recovers the list. -/
theorem filterMap_range_getElem {α : Type} (l : List α) :
    (List.range l.length).filterMap (fun i => l[i]?) = l := by
  induction l with
  | nil => rfl
  | cons x xs ih =>
    rw [List.length_cons, List.range_succ_eq_map, List.filterMap_cons]
    simp only [List.getElem?_cons_zero, List.filterMap_map]
    have : (fun i => (x :: xs)[i + 1]?) = fun i => xs[i]? := by
      funext i
      simp
    simp only [Function.comp_def, List.getElem?_cons_succ]
    rw [ih]

/-- An admissible iteration order visits exactly the split documents: a
permutation of them. -/
theorem iterDocs_perm (contents : String) (σ : List Nat)
    (hadm : σ.Perm (List.range (SplitManifests contents).length)) :
    (iterDocs contents σ).Perm (SplitManifests contents) := by
  have h := hadm.filterMap fun i => (SplitManifests contents)[i]?
  rwa [filterMap_range_getElem] at h

/-- The document buffer of a non-empty document list is non-empty. -/
theorem docsOut_ne_empty (ser : Doc → String) (d : Doc) (ds : List Doc) :
    docsOut ser (d :: ds) ≠ "" := by
  intro h
  have hlen := congrArg String.length h
  have h4 : ("---\n" : String).length = 4 := rfl
  simp [docsOut, String.length_append, h4] at hlen

/-- The document buffer splits over list append. -/
theorem docsOut_append (ser : Doc → String) (l₁ l₂ : List Doc) :
    docsOut ser (l₁ ++ l₂) = docsOut ser l₁ ++ docsOut ser l₂ := by
  induction l₁ with
  | nil => simp [docsOut]
  | cons d ds ih =>
    show (ser d ++ "---\n") ++ docsOut ser (ds ++ l₂)
        = ((ser d ++ "---\n") ++ docsOut ser ds) ++ docsOut ser l₂
    rw [ih]
    simp [String.append_assoc]

/-- The document buffer of a non-empty document list ends with the
separator. -/
theorem docsOut_trailing (ser : Doc → String) (ds : List Doc)
    (h : ds ≠ []) : ∃ w, docsOut ser ds = w ++ "---\n" := by
  rcases List.eq_nil_or_concat ds with rfl | ⟨l, d, hds⟩
  · exact absurd rfl h
  · subst hds
    refine ⟨docsOut ser l ++ ser d, ?_⟩
    rw [List.concat_eq_append, docsOut_append]
    simp [docsOut, String.append_assoc, String.append_empty]

/-- Parse-error freedom of a file transfers to any admissible visiting
order. -/
theorem iter_parse_err_free (parse : String → ParseResult)
    (contents : String) (σ : List Nat)
    (hadm : σ.Perm (List.range (SplitManifests contents).length))
    (hfree : parseErrFree parse contents = true) :
    ∀ m ∈ iterDocs contents σ, ∀ e, parse m ≠ .err e := by
  intro m hm e hc
  have hmem : m ∈ SplitManifests contents :=
    (iterDocs_perm contents σ hadm).mem_iff.mp hm
  have hp := List.all_eq_true.mp hfree m hmem
  rw [hc] at hp
  simp at hp

/-- Under an admissible iteration order and no parse errors, addOwnerRefs
succeeds and writes some permutation of the file's non-empty documents,
each with the configured owner references and a trailing separator. -/
theorem addOwnerRefs_char (parse : String → ParseResult) (ser : Doc → String)
    (refs : List OwnerReference) (contents : String) (σ : List Nat)
    (hadm : σ.Perm (List.range (SplitManifests contents).length))
    (hfree : parseErrFree parse contents = true) :
    ∃ ds : List Doc, ds.Perm (nonEmptyDocs parse contents) ∧
      addOwnerRefs parse ser refs contents σ
        = .ok (docsOut ser (ds.map (withRefs refs))) := by
  refine ⟨(iterDocs contents σ).filterMap fun m =>
      match parse m with
      | .doc d => some d
      | _ => none, ?_, ?_⟩
  · exact (iterDocs_perm contents σ hadm).filterMap _
  · rw [addOwnerRefs,
      addOwnerRefsLoop_ok parse refs _ (iter_parse_err_free parse contents σ hadm hfree)]
    rfl

/-! ## Claim theorems -/

/-- Claim C1 (code_bug): at a deleted CR holding the uninstall finalizer
whose release history is empty (UninstallRelease returns ErrNotFound),
the reconciler returns success — but contrary to the claim it neither
removes the finalizer nor persists the CR, so the CR can never finish
deletion. -/
theorem reconcile_errNotFound_keeps_finalizer :
    (Reconcile mgrUninstallNotFound 5 crDeletedNoRelease).err = none ∧
    (Reconcile mgrUninstallNotFound 5 crDeletedNoRelease).cr.finalizers
        = [finalizerName] ∧
    (Reconcile mgrUninstallNotFound 5 crDeletedNoRelease).updates = [] ∧
    (Reconcile mgrUninstallNotFound 5 crDeletedNoRelease).calls
        = [MgrCall.sync, MgrCall.uninstall] := by
  refine ⟨rfl, rfl, rfl, rfl⟩

/-- Claim C8 counterexample: at a live CR with no finalizers and empty
`status.conditions`, the add-finalizer path leaves the status untouched:
no `Initializing=True` condition is set, contrary to the claim. -/
theorem reconcile_addFinalizer_no_initializing :
    crFresh.deletionTimestamp = none ∧
    containsStr crFresh.finalizers finalizerName = false ∧
    crFresh.status.conditions = [] ∧
    (Reconcile mgrAllOk 5 crFresh).cr.status = crFresh.status ∧
    ((Reconcile mgrAllOk 5 crFresh).cr.status.conditions.any
      fun c => c.condType == "Initializing" && c.condStatus == "True") = false := by
  refine ⟨rfl, rfl, rfl, rfl, rfl⟩

/-- Claim C8 (corrected): for every reconcile of a live CR whose
finalizers do not contain "uninstall-helm-release", the reconciler
appends the finalizer, persists the CR (with its status unchanged — no
condition is set by this revision), and returns without performing Sync,
install, update, reconcile, or uninstall operations, without requeue and
without error. -/
theorem reconcile_addFinalizer_path (m : ManagerOutcome) (rp : Nat) (o : CR)
    (hlive : o.deletionTimestamp = none)
    (hfin : containsStr o.finalizers finalizerName = false) :
    (Reconcile m rp o).cr.finalizers = o.finalizers ++ [finalizerName] ∧
    (Reconcile m rp o).updates = [(Reconcile m rp o).cr] ∧
    (Reconcile m rp o).cr.status = o.status ∧
    (Reconcile m rp o).calls = [] ∧
    (Reconcile m rp o).err = none ∧
    (Reconcile m rp o).requeueAfter = none := by
  simp [Reconcile, hlive, hfin, updateResource, StatusFor]

/-- Witness for the amended C8 theorem at a concrete fresh CR. -/
theorem reconcile_addFinalizer_path_witness :
    (Reconcile mgrAllOk 5 crFresh).cr.finalizers = [finalizerName] ∧
    (Reconcile mgrAllOk 5 crFresh).calls = [] := by
  have h := reconcile_addFinalizer_path mgrAllOk 5 crFresh rfl rfl
  exact ⟨h.1, h.2.2.2.1⟩

/-- Claim C10 (confirmed): when the deletion path removes the uninstall
finalizer after a successful uninstall, the remaining finalizers are
exactly the non-uninstall entries of the original list, in their
original relative order (a sublist of the original). -/
theorem reconcile_uninstall_preserves_other_finalizers
    (m : ManagerOutcome) (rp : Nat) (o : CR) (rel : Option Release)
    (hdel : o.deletionTimestamp.isSome = true)
    (hfin : containsStr o.finalizers finalizerName = true)
    (hsync : m.syncErr = none)
    (hun : m.uninstallResult = (rel, none)) :
    (Reconcile m rp o).cr.finalizers
        = o.finalizers.filter (fun f => f ≠ finalizerName) ∧
    (Reconcile m rp o).cr.finalizers.Sublist o.finalizers ∧
    ∀ x, x ∈ (Reconcile m rp o).cr.finalizers ↔
        x ∈ o.finalizers ∧ x ≠ finalizerName := by
  have hmain : (Reconcile m rp o).cr.finalizers
      = o.finalizers.filter (fun f => f ≠ finalizerName) := by
    simp [Reconcile, hsync, hdel, hfin, hun, StatusFor, updateResource]
    rw [foldl_removeFinalizer, List.nil_append]
  refine ⟨hmain, ?_, ?_⟩
  · rw [hmain]; exact List.filter_sublist _
  · intro x
    rw [hmain]
    simp [List.mem_filter]

/-- Witness for C10 at a CR whose uninstall finalizer sits between two
foreign finalizers. -/
theorem reconcile_uninstall_preserves_other_finalizers_witness :
    (Reconcile mgrAllOk 7 crDeletedManyFinalizers).cr.finalizers
      = ["keep.example/a", "keep.example/b"] := by
  have h := reconcile_uninstall_preserves_other_finalizers mgrAllOk 7
    crDeletedManyFinalizers none rfl rfl rfl rfl
  exact h.1.trans (by decide)

/-- Claim C9 counterexample: the legacy getReleaseName of pkg/helm/helm.go
returns the release-name annotation, not "<name>-<short(uid)>", and two
CRs equal in (name, uid) but differing in annotations get different
names. -/
theorem getReleaseName_uses_annotations :
    getReleaseName crAnnotated = "custom" ∧
    getReleaseName crAnnotated
        ≠ crAnnotated.name ++ "-" ++ shortenUID crAnnotated.uid ∧
    crAnnotated.name = crAnnotatedStripped.name ∧
    crAnnotated.uid = crAnnotatedStripped.uid ∧
    getReleaseName crAnnotated ≠ getReleaseName crAnnotatedStripped := by
  refine ⟨rfl, by decide, rfl, rfl, by decide⟩

/-- Claim C9 (corrected): GetReleaseName of pkg/helm/release/name.go is
"<name>-<short(uid)>" — base-36 of the UUID bytes, or the uid with
dashes removed when UUID parsing fails — and depends only on
(name, uid); the legacy getReleaseName of pkg/helm/helm.go instead
prefers the status release name and the release-name annotations. -/
theorem releaseName_depends_only_on_name_uid (r r' : CR)
    (hn : r.name = r'.name) (hu : r.uid = r'.uid) :
    GetReleaseName r = r.name ++ "-" ++ shortenUID r.uid ∧
    GetReleaseName r = GetReleaseName r' ∧
    (uuidParse r.uid = none →
      GetReleaseName r = r.name ++ "-" ++ removeDashes r.uid) ∧
    (∀ bs, uuidParse r.uid = some bs →
      GetReleaseName r = r.name ++ "-" ++ encodeBytesBase36 bs) := by
  refine ⟨rfl, ?_, ?_, ?_⟩
  · simp [GetReleaseName, hn, hu]
  · intro h; simp [GetReleaseName, shortenUID, h]
  · intro bs h; simp [GetReleaseName, shortenUID, h]

/-- Witness for the amended C9 theorem: two CRs sharing (name, uid) but
with different annotations and status get the same release name, here
"foo-1" for the UUID ...0001. -/
theorem releaseName_depends_only_on_name_uid_witness :
    GetReleaseName crUUID = GetReleaseName crUUIDOther ∧
    GetReleaseName crUUID = "foo-1" := by
  have h := releaseName_depends_only_on_name_uid crUUID crUUIDOther rfl rfl
  exact ⟨h.2.1, h.1.trans (by decide)⟩

/-- Claim C5 (confirmed): UninstallRelease returns ErrNotFound iff the
history of the CR's release name is empty; with empty history it issues
no uninstall request; with non-empty history it issues exactly one
uninstall request with Purge=true and returns the response's release
together with the response's error. -/
theorem uninstallRelease_notFound_iff (releaseName : String)
    (historyResult : Except String (List Release))
    (tillerResponse : Option Release × Option String) :
    ((UninstallRelease releaseName historyResult tillerResponse).2.2
        = some .notFound ↔ historyResult = .ok []) ∧
    (historyResult = .ok [] →
      (UninstallRelease releaseName historyResult tillerResponse).1 = []) ∧
    (∀ h : List Release, historyResult = .ok h → h ≠ [] →
      (UninstallRelease releaseName historyResult tillerResponse).1
          = [{ name := releaseName, purge := true }] ∧
      (UninstallRelease releaseName historyResult tillerResponse).2.1
          = tillerResponse.1 ∧
      (UninstallRelease releaseName historyResult tillerResponse).2.2
          = tillerResponse.2.map UErr.tillerErr) := by
  obtain ⟨trel, terr⟩ := tillerResponse
  cases historyResult with
  | error e => simp [UninstallRelease]
  | ok h =>
    cases h with
    | nil => simp [UninstallRelease]
    | cons x t =>
      cases terr with
      | none => simp [UninstallRelease]
      | some msg => simp [UninstallRelease]

/-- Witness for C5: empty history yields ErrNotFound; a one-entry
history yields exactly one purging uninstall request. -/
theorem uninstallRelease_notFound_iff_witness :
    (UninstallRelease "r-x" (.ok []) (none, none)).2.2
        = some UErr.notFound ∧
    (UninstallRelease "r-x" (.ok [relFailedV1]) (some relFailedV1, none)).1
        = [{ name := "r-x", purge := true }] := by
  refine ⟨(uninstallRelease_notFound_iff "r-x" (.ok []) (none, none)).1.mpr rfl,
    ((uninstallRelease_notFound_iff "r-x" (.ok [relFailedV1])
      (some relFailedV1, none)).2.2 [relFailedV1] rfl (by decide)).1⟩

/-- Claim C6 (confirmed): after a failed install with a recorded partial
release, exactly one compensating uninstall with Purge=true is issued
and the original install error is returned (combined only when the
compensation itself fails); after a failed update with a recorded
partial release, one compensating rollback with Force=true is issued
likewise; with no partial release no compensating request is issued. -/
theorem install_update_compensation (releaseName : String) (err : String)
    (partialRel : Release) (deployedRelease : Option Release)
    (uninstallResponse rollbackResponse : Option Release × Option String) :
    (uninstallResponse.2 = none →
      InstallRelease releaseName (some partialRel, some err) uninstallResponse
        = ([{ name := releaseName, purge := true }], (none, some err))) ∧
    (∀ ue, uninstallResponse.2 = some ue →
      InstallRelease releaseName (some partialRel, some err) uninstallResponse
        = ([{ name := releaseName, purge := true }],
            (none, some ("failed to roll back failed installation: "
              ++ ue ++ ": " ++ err)))) ∧
    InstallRelease releaseName (none, some err) uninstallResponse
        = ([], (none, some err)) ∧
    (rollbackResponse.2 = none →
      UpdateRelease releaseName deployedRelease (some partialRel, some err)
          rollbackResponse
        = ([{ name := releaseName, force := true }],
            ((none, none), some err))) ∧
    (∀ re, rollbackResponse.2 = some re →
      UpdateRelease releaseName deployedRelease (some partialRel, some err)
          rollbackResponse
        = ([{ name := releaseName, force := true }],
            ((none, none), some ("failed to roll back failed update: "
              ++ re ++ ": " ++ err)))) ∧
    UpdateRelease releaseName deployedRelease (none, some err)
        rollbackResponse
      = ([], ((none, none), some err)) := by
  refine ⟨fun h => ?_, fun ue h => ?_, rfl, fun h => ?_, fun re h => ?_, rfl⟩
  · simp [InstallRelease, h]
  · simp [InstallRelease, h]
  · simp [UpdateRelease, h]
  · simp [UpdateRelease, h]

/-- Witness for C6: a failed install with a partial release issues the
purging uninstall and surfaces the original error; a failed update with
no partial release issues nothing. -/
theorem install_update_compensation_witness :
    InstallRelease "r-x" (some relFailedV1, some "boom") (none, none)
        = ([{ name := "r-x", purge := true }], (none, some "boom")) ∧
    UpdateRelease "r-x" none (none, some "boom") (none, none)
        = ([], ((none, none), some "boom")) := by
  have h := install_update_compensation "r-x" "boom" relFailedV1 none
    (none, none) (none, none)
  exact ⟨h.1 rfl, h.2.2.2.2.2⟩

/-- Claim C7 (confirmed): when a deployed release exists and
PrepareRelease (resp. IsUpdateRequired) succeeds, the update-required
flag is true iff the dry-run candidate manifest differs from the
deployed manifest under exact string comparison. -/
theorem prepareRelease_updateRequired_iff (deployed : Release)
    (dryRunRel : Option Release) (flags : Bool × Bool)
    (hprep : PrepareRelease (.ok ()) (.ok deployed) (dryRunRel, none)
        = .ok flags) :
    flags.1 = true ∧
    (flags.2 = true ↔ deployed.manifest ≠ manifestOf dryRunRel) ∧
    ∀ b, IsUpdateRequired (some deployed) (dryRunRel, none) = .ok b →
      (b = true ↔ deployed.manifest ≠ manifestOf dryRunRel) := by
  have hflags : (true, !decide (deployed.manifest = manifestOf dryRunRel))
      = flags := by
    simpa [PrepareRelease] using hprep
  subst hflags
  refine ⟨rfl, by simp, ?_⟩
  intro b hb
  have hb : b = decide (deployed.manifest ≠ manifestOf dryRunRel) := by
    simpa [IsUpdateRequired, manifestOf] using hb.symm
  subst hb
  simp

/-- Witness for C7: with distinct manifests the flag is true, hence the
manifests indeed differ. -/
theorem prepareRelease_updateRequired_iff_witness :
    relDeployedW.manifest ≠ manifestOf (some relCandidateW) :=
  ((prepareRelease_updateRequired_iff relDeployedW (some relCandidateW)
      (true, true) rfl).2.1).mp rfl

/-- Claim C4 (confirmed): after Sync, (a) a deployed release recorded in
the status but missing from the store has been re-created, and (b) the
remaining history of the CR's release name contains only DEPLOYED
versions. -/
theorem sync_postconditions (st : Store) (statusRelease : Option Release)
    (releaseName : String) :
    (∀ rel, statusRelease = some rel → rel.code = StatusCode.deployed →
      storeGet st rel.name rel.version = none →
      storeGet (Sync st statusRelease releaseName) rel.name rel.version
        = some rel) ∧
    (∀ r, r ∈ storeHistory (Sync st statusRelease releaseName) releaseName →
      r.code = StatusCode.deployed) := by
  constructor
  · intro rel hsr hdep hmiss
    subst hsr
    have hget₁ : storeGet (st ++ [rel]) rel.name rel.version = some rel := by
      rw [storeGet_append st [rel] rel.name rel.version hmiss]
      simp [storeGet, List.find?_cons]
    have hkeys : ∀ r ∈ storeHistory (st ++ [rel]) releaseName,
        r.code ≠ StatusCode.deployed →
        ¬(r.name = rel.name ∧ r.version = rel.version) := by
      intro r hr hc hkey
      have hrmem : r ∈ st ++ [rel] := (List.mem_filter.mp hr).1
      rcases List.mem_append.mp hrmem with hin | hin
      · exact (storeGet_eq_none_iff st rel.name rel.version).mp hmiss r hin hkey
      · have : r = rel := by simpa using hin
        exact hc (this ▸ hdep)
    have hsync : Sync st (some rel) releaseName
        = (storeHistory (st ++ [rel]) releaseName).foldl syncDeleteStep
            (st ++ [rel]) := by
      simp [Sync, hmiss, storeCreate]
    rw [hsync, storeGet_foldl_preserved _ _ _ _ hkeys, hget₁]
  · intro r hr
    cases statusRelease with
    | none =>
      exact history_foldl_only_deployed st releaseName r
        (List.mem_filter.mp hr).1
        (by simpa using (List.mem_filter.mp hr).2)
    | some rel =>
      by_cases hms : (storeGet st rel.name rel.version).isSome
      · have hr' : r ∈ storeHistory
            ((storeHistory st releaseName).foldl syncDeleteStep st)
            releaseName := by
          simpa [Sync, hms] using hr
        exact history_foldl_only_deployed st releaseName r
          (List.mem_filter.mp hr').1
          (by simpa using (List.mem_filter.mp hr').2)
      · have hr' : r ∈ storeHistory
            ((storeHistory (storeCreate st rel) releaseName).foldl
              syncDeleteStep (storeCreate st rel)) releaseName := by
          simpa [Sync, hms] using hr
        exact history_foldl_only_deployed (storeCreate st rel) releaseName r
          (List.mem_filter.mp hr').1
          (by simpa using (List.mem_filter.mp hr').2)

/-- Claim C3 (confirmed): every document emitted by the owner-reference
injecting renderer carries exactly the configured owner-reference
sequence, and the renderer constructed for a CR (tillerRendererForCR) is
configured with the single controller reference to the CR, with
controller=true. -/
theorem renderer_injects_ownerrefs (parse : String → ParseResult)
    (ser : Doc → String) (refs : List OwnerReference) (contents : String)
    (σ : List Nat) (out : String) (r : CR)
    (h : addOwnerRefs parse ser refs contents σ = .ok out) :
    (∃ ds : List Doc, (∀ d ∈ ds, d.ownerRefs = refs) ∧
        out = docsOut ser ds) ∧
    ownerRefsForCR r = [NewControllerRef r] ∧
    (NewControllerRef r).controller = some true := by
  refine ⟨?_, rfl, rfl⟩
  rw [addOwnerRefs] at h
  cases hloop : addOwnerRefsLoop parse refs (iterDocs contents σ) with
  | error e => rw [hloop] at h; cases h
  | ok ds =>
    rw [hloop] at h
    refine ⟨ds, addOwnerRefsLoop_refs parse refs _ ds hloop, ?_⟩
    exact (Except.ok.inj h).symm

/-- Witness for C3 at a one-document file with a concrete owner
reference. -/
theorem renderer_injects_ownerrefs_witness :
    ∃ ds : List Doc, (∀ d ∈ ds, d.ownerRefs = [refA]) ∧
      "a---\n" = docsOut toySer ds :=
  (renderer_injects_ownerrefs toyParse toySer [refA] "a" [0] "a---\n"
    crFresh rfl).1

/-- Claim C2 counterexample: with the admissible iteration order [1, 0]
over the two documents of "a\n---\nb" (Go map iteration order is
unspecified), the renderer emits the documents as "b---\na---\n" — not
in their input order "a---\nb---\n" as the claim requires. -/
theorem render_reorders_documents :
    ([1, 0] : List Nat).Perm
        (List.range (SplitManifests twoDocFile).length) ∧
    addOwnerRefs toyParse toySer [] twoDocFile [1, 0]
        = .ok "b---\na---\n" ∧
    "b---\na---\n" ≠ "a---\nb---\n" ∧
    nonEmptyDocs toyParse twoDocFile
        = [{ body := "a", ownerRefs := [] }, { body := "b", ownerRefs := [] }] := by
  refine ⟨?_, rfl, by decide, rfl⟩
  have hsplit : SplitManifests twoDocFile = ["a", "b"] := rfl
  rw [hsplit]
  exact List.Perm.swap 0 1 []

/-- Induction core for the Render characterization. -/
theorem render_char_aux (parse : String → ParseResult) (ser : Doc → String)
    (refs : List OwnerReference) (orderOf : String → List Nat) :
    ∀ rendered out : List (String × String),
      (∀ p ∈ rendered,
        (orderOf p.1).Perm (List.range (SplitManifests p.2).length)) →
      (∀ p ∈ rendered, parseErrFree parse p.2 = true) →
      Render parse ser refs orderOf rendered = .ok out →
      out.map Prod.fst
          = (rendered.filter fun p =>
              strEndsWith p.1 ".yaml" ∧ nonEmptyDocs parse p.2 ≠ []).map
            Prod.fst ∧
      ∀ p ∈ out, ∃ txt, ∃ ds : List Doc, (p.1, txt) ∈ rendered ∧
        ds.Perm (nonEmptyDocs parse txt) ∧ ds ≠ [] ∧
        p.2 = docsOut ser (ds.map (withRefs refs)) ∧
        ∃ w, p.2 = w ++ "---\n" := by
  intro rendered
  induction rendered with
  | nil =>
    intro out _ _ hrun
    obtain rfl : ([] : List (String × String)) = out := Except.ok.inj hrun
    exact ⟨rfl, fun p hp => absurd hp (List.not_mem_nil p)⟩
  | cons hd tl ih =>
    obtain ⟨n, txt⟩ := hd
    intro out hadm hfree hrun
    have hadm₀ := hadm (n, txt) (List.mem_cons_self _ _)
    have hfree₀ := hfree (n, txt) (List.mem_cons_self _ _)
    have hadm' := fun p hp => hadm p (List.mem_cons_of_mem (n, txt) hp)
    have hfree' := fun p hp => hfree p (List.mem_cons_of_mem (n, txt) hp)
    by_cases hy : strEndsWith n ".yaml" = true
    · obtain ⟨ds, hdsperm, haor⟩ :=
        addOwnerRefs_char parse ser refs txt (orderOf n) hadm₀ hfree₀
      simp only [Render, if_pos hy, haor] at hrun
      by_cases hds : ds = []
      · subst hds
        rw [if_pos (show docsOut ser (List.map (withRefs refs) []) = ""
          from rfl)] at hrun
        obtain ⟨h1, h2⟩ := ih out hadm' hfree' hrun
        have hne : nonEmptyDocs parse txt = [] := hdsperm.symm.eq_nil
        constructor
        · rw [List.filter_cons_of_neg (by simp [hne])]
          exact h1
        · intro p hp
          obtain ⟨txt', ds', htl, hrest⟩ := h2 p hp
          exact ⟨txt', ds', List.mem_cons_of_mem (n, txt) htl, hrest⟩
      · have hmapne : List.map (withRefs refs) ds ≠ [] := by
          simpa using hds
        have hwne : docsOut ser (List.map (withRefs refs) ds) ≠ "" := by
          cases hmap : List.map (withRefs refs) ds with
          | nil => exact absurd hmap hmapne
          | cons d dtl => exact docsOut_ne_empty ser d dtl
        rw [if_neg hwne] at hrun
        cases hrec : Render parse ser refs orderOf tl with
        | error e => rw [hrec] at hrun; cases hrun
        | ok out' =>
          rw [hrec] at hrun
          obtain rfl : (n, docsOut ser (List.map (withRefs refs) ds)) :: out'
              = out := Except.ok.inj hrun
          obtain ⟨h1, h2⟩ := ih out' hadm' hfree' hrec
          have hperm_ne : nonEmptyDocs parse txt ≠ [] := by
            intro hnil
            rw [hnil] at hdsperm
            exact hds hdsperm.eq_nil
          constructor
          · rw [List.filter_cons_of_pos (by simp [hy, hperm_ne])]
            simp only [List.map_cons]
            rw [h1]
          · intro p hp
            rcases List.mem_cons.mp hp with heq | hmem
            · subst heq
              exact ⟨txt, ds, List.mem_cons_self _ _, hdsperm, hds, rfl,
                docsOut_trailing ser _ hmapne⟩
            · obtain ⟨txt', ds', htl, hrest⟩ := h2 p hmem
              exact ⟨txt', ds', List.mem_cons_of_mem (n, txt) htl, hrest⟩
    · simp only [Render, if_neg hy] at hrun
      obtain ⟨h1, h2⟩ := ih out hadm' hfree' hrun
      constructor
      · rw [List.filter_cons_of_neg (by simp [hy])]
        exact h1
      · intro p hp
        obtain ⟨txt', ds', htl, hrest⟩ := h2 p hp
        exact ⟨txt', ds', List.mem_cons_of_mem (n, txt) htl, hrest⟩

/-- Claim C2 (corrected): for every rendered-file map, an admissible
iteration order, and no parse errors, when Render succeeds its output
keeps exactly the ".yaml" files having at least one non-empty document
(in their input file order), and each kept value is the file's non-empty
documents — in the map-iteration order, a permutation of the input
order — each re-serialized with the owner references injected and
followed by "---\n", so the value ends with a trailing separator. -/
theorem render_output_characterization (parse : String → ParseResult)
    (ser : Doc → String) (refs : List OwnerReference)
    (orderOf : String → List Nat) (rendered out : List (String × String))
    (hadm : ∀ p ∈ rendered,
      (orderOf p.1).Perm (List.range (SplitManifests p.2).length))
    (hfree : ∀ p ∈ rendered, parseErrFree parse p.2 = true)
    (hrun : Render parse ser refs orderOf rendered = .ok out) :
    out.map Prod.fst
        = (rendered.filter fun p =>
            strEndsWith p.1 ".yaml" ∧ nonEmptyDocs parse p.2 ≠ []).map
          Prod.fst ∧
    ∀ p ∈ out, ∃ txt, ∃ ds : List Doc, (p.1, txt) ∈ rendered ∧
      ds.Perm (nonEmptyDocs parse txt) ∧ ds ≠ [] ∧
      p.2 = docsOut ser (ds.map (withRefs refs)) ∧
      ∃ w, p.2 = w ++ "---\n" :=
  render_char_aux parse ser refs orderOf rendered out hadm hfree hrun

/-- Witness for the amended C2 theorem: under the swapped iteration
order, of the three base files only "a.yaml" (two non-empty documents)
survives; the non-yaml file and the empty yaml file are dropped. -/
theorem render_output_characterization_witness :
    ([("a.yaml", "b---\na---\n")] : List (String × String)).map Prod.fst
      = (renderedFiles.filter fun p =>
          strEndsWith p.1 ".yaml" ∧ nonEmptyDocs toyParse p.2 ≠ []).map
        Prod.fst :=
  (render_output_characterization toyParse toySer [] orderSwap
    renderedFiles [("a.yaml", "b---\na---\n")] (by decide) (by decide)
    rfl).1

/-- Witness for C4: a store holding only a FAILED version 1, with a
DEPLOYED version 2 recorded in the status: after Sync the deployed
version is present and the failed one gone from the history. -/
theorem sync_postconditions_witness :
    storeGet (Sync storeWithFailed (some relDeployedV2) "r-x")
        relDeployedV2.name relDeployedV2.version = some relDeployedV2 ∧
    relFailedV1 ∉ storeHistory
        (Sync storeWithFailed (some relDeployedV2) "r-x") "r-x" := by
  have h := sync_postconditions storeWithFailed (some relDeployedV2) "r-x"
  refine ⟨h.1 relDeployedV2 rfl rfl (by decide), fun hc => ?_⟩
  have := h.2 relFailedV1 hc
  simp [relFailedV1] at this

end HelmOp
